import Mathlib

/-!
Verification of the `Encoding` post-tokenization model (`src/encoding.go`).

The Go code is embedded shallowly and functionally.  All methods of
`Encoding` in the source use *value receivers*: a method receives a copy of
the receiver, so an assignment to a field of the receiver inside a method is
invisible to the caller.  The embedding therefore models each method as a
pure function from the receiver (and arguments) to its returned values; a
recursive call whose result the source discards is a no-op and is embedded
as such (each of these spots is documented at its definition).

Machine integers: Go `uint`/`uint32` values are embedded as `Nat` and Go
`int` as `Int`.  Where a conclusion depends on arithmetic over a
fixed-width type declared in the source — the `uint32` word-index rebasing
in `MergeWith` — the wrap-around is modeled explicitly with `% 2 ^ 32`;
the remaining arithmetic (lengths, slice indices, and the spec-modelled
unsigned offsets) is width-independent.

Go runtime faults (index / slice-bound panics) are embedded as `Option`
results (`none` = panic) or by the dedicated `TruncResult.crash`
constructor; a Go function that returns normally never maps to those.
-/

/-- Modelled from the spec: the `Offsets` struct is declared outside the
provided source files (only its uses appear in `src/encoding.go`).
Spec §3: an offset span is `{start: unsigned, end: unsigned}`, a half-open
`[start, end)` range, so both fields are embedded as `Nat`. -/
structure Offsets where
  Start : Nat
  End : Nat
deriving DecidableEq, Repr

/-- `PaddingDirection` from `src/encoding.go` (`Left = iota`, `Right`). -/
inductive PaddingDirection where
  | Left
  | Right
deriving DecidableEq, Repr

/-- The `Encoding` struct of `src/encoding.go`: seven parallel sequences
plus the nested overflow list.  Go nil slices and empty slices are
indistinguishable for every operation in the source (only lengths and
elements are consulted), so each slice field is a plain list. -/
structure Encoding where
  Ids : List Nat
  TypeIds : List Nat
  Tokens : List String
  Offsets : List Offsets
  SpecialTokenMask : List Nat
  AttentionMask : List Nat
  Overflowing : List Encoding
  Words : List Nat

/-- Alias for the span type, needed inside the `Encoding` namespace where
the bare name `Offsets` is shadowed by the field projection. -/
abbrev OffsetSpan : Type := Offsets

/-- The Go zero value of the `Encoding` struct: every slice nil, i.e. empty.
This is what a bare `return` with the never-assigned named result `retVal`
produces. -/
def zeroEncoding : Encoding :=
  { Ids := [], TypeIds := [], Tokens := [], Offsets := [],
    SpecialTokenMask := [], AttentionMask := [], Overflowing := [], Words := [] }

/-- `TakeOverflowing` (src/encoding.go:154-158).  The method has a value
receiver, so the assignment `e.Overflowing = []Encoding{}` mutates only the
method's local copy; the caller's Encoding is unaffected.  The embedding
returns the pair (returned overflow list, the caller's encoding as observed
after the call). -/
def Encoding.TakeOverflowing (e : Encoding) : List Encoding × Encoding :=
  (e.Overflowing, e)

/-- `Token2Chars` (src/encoding.go:208-214).  `tokenIdx` is a Go `int`.
The guard is `tokenIdx < 0 || tokenIdx > len(e.Offsets)` (note `>`, not
`>=`), so `tokenIdx = len(e.Offsets)` reaches the access
`e.Offsets[tokenIdx]`, an index-out-of-range panic, embedded as `none`.
A normal return is `some (offsets-value, ok-flag)`; the "not found" branch
returns the zero `Offsets` value and `false`. -/
def Encoding.Token2Chars (e : Encoding) (tokenIdx : Int) : Option (OffsetSpan × Bool) :=
  if tokenIdx < 0 ∨ tokenIdx > (e.Offsets.length : Int) then
    some (⟨0, 0⟩, false)
  else
    match e.Offsets[tokenIdx.toNat]? with
    | some o => some (o, true)
    | none => none

/-- The running maximum that `MergeWith` (src/encoding.go:357-362) computes:
`startingOffset = 0; for o in e.Offsets { if o.End > startingOffset
{ startingOffset = o.End } }`. -/
def maxEnd (l : List Offsets) : Nat :=
  l.foldl (fun acc o => if acc < o.End then o.End else acc) 0

/-- `MergeWith` (src/encoding.go:326-382).  Steps 1 and 2 of the source call
`MergeWith` recursively on local copies (`currO`, `newE`) and discard the
returned value; with value receivers those calls have no observable effect,
so the overflow list the source builds contains, for each entry `o` of
`e.Overflowing`, the unmodified `o` once for the pair itself and once per
entry of `pair.Overflowing`, followed by one unmodified copy of `e` per
entry of `pair.Overflowing`.  Step 3 concatenates the parallel arrays,
rebasing `pair`'s offsets by `startingOffset`; step 4 rebases `pair`'s word
indices by `len(e.Words)` — the source computes `w + uint32(wOffset)` on the
`uint32` word values, so the addition wraps modulo `2 ^ 32`. -/
def Encoding.MergeWith (e pair : Encoding) : Encoding :=
  let overflowings : List Encoding :=
    (e.Overflowing.map fun o => o :: pair.Overflowing.map fun _ => o).flatten ++
      pair.Overflowing.map fun _ => e
  let startingOffset := maxEnd e.Offsets
  { Ids := e.Ids ++ pair.Ids
    TypeIds := e.TypeIds ++ pair.TypeIds
    Tokens := e.Tokens ++ pair.Tokens
    Offsets := e.Offsets ++
      pair.Offsets.map fun o => ⟨o.Start + startingOffset, o.End + startingOffset⟩
    SpecialTokenMask := e.SpecialTokenMask ++ pair.SpecialTokenMask
    AttentionMask := e.AttentionMask ++ pair.AttentionMask
    Overflowing := overflowings
    Words := e.Words ++ pair.Words.map fun w => (w + e.Words.length) % 2 ^ 32 }

/-- `Merge` (src/encoding.go:316-323): left fold of `MergeWith`. -/
def Encoding.Merge (e : Encoding) (encodings : List Encoding) : Encoding :=
  encodings.foldl Encoding.MergeWith e

/-- `Pad` (src/encoding.go:385-463).  Step 1 of the source iterates over
`e.Overflowing` calling `o.Pad(...)` on the loop copy `o` and discarding the
result — with a value receiver this has no effect, so the embedding omits
it and the overflow list passes through unchanged.  If no padding is needed
the source executes a bare `return`: the named result `retVal` was never
assigned, so the *zero* Encoding is returned.  In the `Left` branch the
source pads `TypeIds` with filler followed by `e.Ids` (which at that point
already holds the padded ids) rather than `e.TypeIds`, and fills the new
offsets with the loop `for i := 0; i < len(newIds); i++`, which writes past
`newOffsets` (length `padLength`) whenever the original `Ids` are
non-empty — an index-out-of-range panic, embedded as `none`. -/
def Encoding.Pad (e : Encoding) (targetLength : Nat) (padId padTypeId : Nat)
    (padToken : String) (direction : PaddingDirection) : Option Encoding :=
  if e.Ids.length ≥ targetLength then
    some zeroEncoding
  else
    let padLength := targetLength - e.Ids.length
    match direction with
    | .Left =>
      let newIds := List.replicate padLength padId ++ e.Ids
      if padLength < newIds.length then
        none
      else
        some
          { Ids := newIds
            TypeIds := List.replicate padLength padTypeId ++ newIds
            Tokens := List.replicate padLength padToken ++ e.Tokens
            Offsets := List.replicate padLength ⟨0, 0⟩ ++ e.Offsets
            SpecialTokenMask := List.replicate padLength 1 ++ e.SpecialTokenMask
            AttentionMask := List.replicate padLength 0 ++ e.AttentionMask
            Overflowing := e.Overflowing
            Words := List.replicate padLength 0 ++ e.Words }
    | .Right =>
      some
        { Ids := e.Ids ++ List.replicate padLength padId
          TypeIds := e.TypeIds ++ List.replicate padLength padTypeId
          Tokens := e.Tokens ++ List.replicate padLength padToken
          Offsets := e.Offsets ++ List.replicate padLength ⟨0, 0⟩
          SpecialTokenMask := e.SpecialTokenMask ++ List.replicate padLength 1
          AttentionMask := e.AttentionMask ++ List.replicate padLength 0
          Overflowing := e.Overflowing
          Words := e.Words ++ List.replicate padLength 0 }

/-- `getCurrentPart` (src/encoding.go:465-498).  The source dispatches on
the runtime element type with three textually identical branches
(`[]uint32`, `[]string`, `[]Offsets`); the embedding is that common body,
polymorphic in the element type.  `curr` is
`current[idx*size : (idx+1)*size]`, clipped to `current[idx*size:]` when the
upper bound exceeds the length (a panic — `none` — if even the lower bound
does); `prev` is `previous[len(previous)-stride:]`, a panic if `stride`
exceeds the length (negative low bound).  The result is `prev ++ curr`; the
in-place aliasing of Go's `append` never changes the produced values
(within `Truncate`, `curr` always sits immediately after `prev` in the
shared backing array, so the overlapping writes are identity writes). -/
def getCurrentPart {α : Type} (previous current : List α) (size idx stride : Nat) :
    Option (List α) :=
  let curr? : Option (List α) :=
    if (idx + 1) * size > current.length then
      if idx * size > current.length then none
      else some (current.drop (idx * size))
    else some ((current.drop (idx * size)).take size)
  let prev? : Option (List α) :=
    if stride > previous.length then none
    else some (previous.drop (previous.length - stride))
  match curr?, prev? with
  | some c, some p => some (p ++ c)
  | _, _ => none

/-- The window-construction loop of `Truncate` (src/encoding.go:284-308):
starting from the truncated primary encoding as `prevEncoding`, while
`partSize*partId < len(oIds)` build one window from the last `stride`
elements of the previous window plus the next `partSize` overflow elements
of each parallel array, append it, and continue with it as the new
`prevEncoding`.  The loop is embedded with explicit fuel so that it is
kernel-executable; `Truncate` supplies fuel `len(oIds) + 1`, which is
sufficient for every call it makes (it always has `partSize ≥ 1`, proved in
`truncWindows_spec`), so `none` arises only from a `getCurrentPart` panic
(for `partSize = 0` the Go loop would not terminate, but `Truncate` never
reaches the loop with `partSize = 0`). -/
def truncWindows (fuel : Nat) (prev : Encoding) (oIds oTypeIds : List Nat)
    (oTokens : List String) (oOffsets : List Offsets) (oSTM oAM oWords : List Nat)
    (partSize stride partId : Nat) : Option (List Encoding) :=
  match fuel with
  | 0 => none
  | fuel' + 1 =>
    if partSize * partId < oIds.length then do
      let ids ← getCurrentPart prev.Ids oIds partSize partId stride
      let typeIds ← getCurrentPart prev.TypeIds oTypeIds partSize partId stride
      let toks ← getCurrentPart prev.Tokens oTokens partSize partId stride
      let offs ← getCurrentPart prev.Offsets oOffsets partSize partId stride
      let stm ← getCurrentPart prev.SpecialTokenMask oSTM partSize partId stride
      let am ← getCurrentPart prev.AttentionMask oAM partSize partId stride
      let ws ← getCurrentPart prev.Words oWords partSize partId stride
      let o : Encoding :=
        { Ids := ids, TypeIds := typeIds, Tokens := toks, Offsets := offs,
          SpecialTokenMask := stm, AttentionMask := am, Overflowing := [], Words := ws }
      let rest ← truncWindows fuel' o oIds oTypeIds oTokens oOffsets oSTM oAM oWords
        partSize stride (partId + 1)
      pure (o :: rest)
    else
      some []

/-- Result of `Truncate` (src/encoding.go:248-313): the returned
`(Encoding, error)` pair, with the non-nil `fmt.Errorf` of the argument
check as `invalidArg` and a Go runtime panic (slice bounds out of range) as
`crash`.  The value receiver means the caller's Encoding is never modified;
an error return carries no encoding. -/
inductive TruncResult where
  | invalidArg
  | crash
  | ok (e : Encoding)

/-- `Truncate` (src/encoding.go:248-313).  Arguments are Go `uint`s.  After
the argument check and the no-op case, every parallel array is sliced at
`maxLen` (a panic if any of the other six arrays is shorter than `maxLen`;
`Ids` is longer here), the window loop runs on the overflow parts, and the
truncated encoding is returned with `Overflowing` replaced by the windows. -/
def Encoding.Truncate (e : Encoding) (maxLen stride : Nat) : TruncResult :=
  if stride ≥ maxLen ∨ maxLen = 0 then
    .invalidArg
  else if maxLen ≥ e.Ids.length then
    .ok e
  else if e.TypeIds.length < maxLen ∨ e.Tokens.length < maxLen ∨
      e.Offsets.length < maxLen ∨ e.SpecialTokenMask.length < maxLen ∨
      e.AttentionMask.length < maxLen ∨ e.Words.length < maxLen then
    .crash
  else
    let newE : Encoding :=
      { Ids := e.Ids.take maxLen, TypeIds := e.TypeIds.take maxLen,
        Tokens := e.Tokens.take maxLen, Offsets := e.Offsets.take maxLen,
        SpecialTokenMask := e.SpecialTokenMask.take maxLen,
        AttentionMask := e.AttentionMask.take maxLen,
        Overflowing := e.Overflowing, Words := e.Words.take maxLen }
    let oIds := e.Ids.drop maxLen
    match truncWindows (oIds.length + 1) newE oIds (e.TypeIds.drop maxLen)
        (e.Tokens.drop maxLen) (e.Offsets.drop maxLen)
        (e.SpecialTokenMask.drop maxLen) (e.AttentionMask.drop maxLen)
        (e.Words.drop maxLen) (maxLen - stride) stride 0 with
    | some ws => .ok { newE with Overflowing := ws }
    | none => .crash

/-- The primary ids of a successful `Truncate` result (empty otherwise);
used to state concrete windowing facts. -/
def TruncResult.primaryIds : TruncResult → List Nat
  | .ok r => r.Ids
  | _ => []

/-- The ids of the overflow windows of a successful `Truncate` result. -/
def TruncResult.overflowIds : TruncResult → List (List Nat)
  | .ok r => r.Overflowing.map fun w => w.Ids
  | _ => []

/-- The last `n` elements of a list (Go `xs[len(xs)-n:]` for `n ≤ len`). -/
def lastN {α : Type} (n : Nat) (xs : List α) : List α :=
  xs.drop (xs.length - n)

/-- All seven parallel sequences of `x` have length `n`. -/
def encLens (x : Encoding) (n : Nat) : Prop :=
  x.Ids.length = n ∧ x.TypeIds.length = n ∧ x.Tokens.length = n ∧
  x.Offsets.length = n ∧ x.SpecialTokenMask.length = n ∧
  x.AttentionMask.length = n ∧ x.Words.length = n

/-- Window `w` at index `k` continues window `p`: each of its parallel
sequences is the last `stride` elements of the corresponding sequence of
`p` followed by up to `ps` fresh elements of the corresponding overflow
sequence starting at offset `k * ps`; a window carries no nested overflow. -/
def winRel (ps stride : Nat) (oIds oTypeIds : List Nat) (oTokens : List String)
    (oOffsets : List Offsets) (oSTM oAM oWords : List Nat)
    (p w : Encoding) (k : Nat) : Prop :=
  w.Ids = lastN stride p.Ids ++ (oIds.drop (k * ps)).take ps ∧
  w.TypeIds = lastN stride p.TypeIds ++ (oTypeIds.drop (k * ps)).take ps ∧
  w.Tokens = lastN stride p.Tokens ++ (oTokens.drop (k * ps)).take ps ∧
  w.Offsets = lastN stride p.Offsets ++ (oOffsets.drop (k * ps)).take ps ∧
  w.SpecialTokenMask = lastN stride p.SpecialTokenMask ++ (oSTM.drop (k * ps)).take ps ∧
  w.AttentionMask = lastN stride p.AttentionMask ++ (oAM.drop (k * ps)).take ps ∧
  w.Words = lastN stride p.Words ++ (oWords.drop (k * ps)).take ps ∧
  w.Overflowing = []

/-- A well-formed Encoding of length 10 with `Ids = [0..9]`, the spec's
`Truncate` windowing example. -/
def ex10 : Encoding :=
  { Ids := [0, 1, 2, 3, 4, 5, 6, 7, 8, 9],
    TypeIds := List.replicate 10 0, Tokens := List.replicate 10 "t",
    Offsets := List.replicate 10 ⟨0, 0⟩, SpecialTokenMask := List.replicate 10 0,
    AttentionMask := List.replicate 10 1, Overflowing := [],
    Words := List.replicate 10 0 }

/-- A well-formed Encoding of length 1. -/
def ex1 : Encoding :=
  { Ids := [5], TypeIds := [0], Tokens := ["a"], Offsets := [⟨0, 1⟩],
    SpecialTokenMask := [0], AttentionMask := [1], Overflowing := [], Words := [0] }

/-- A well-formed Encoding of length 1 carrying one (empty) overflow entry. -/
def ex1o : Encoding :=
  { Ids := [1], TypeIds := [0], Tokens := ["a"], Offsets := [⟨0, 1⟩],
    SpecialTokenMask := [0], AttentionMask := [1], Overflowing := [zeroEncoding],
    Words := [0] }

/-- A well-formed Encoding of length 2 with offsets `[0,2)`, `[2,5)` and
words `[0, 0]` (two tokens of one word group). -/
def exA : Encoding :=
  { Ids := [1, 2], TypeIds := [0, 0], Tokens := ["ab", "cd"],
    Offsets := [⟨0, 2⟩, ⟨2, 5⟩], SpecialTokenMask := [0, 0],
    AttentionMask := [1, 1], Overflowing := [], Words := [0, 0] }

/-- A well-formed Encoding of length 1 with offset `[0,3)` and word `[0]`. -/
def exB : Encoding :=
  { Ids := [3], TypeIds := [1], Tokens := ["ef"], Offsets := [⟨0, 3⟩],
    SpecialTokenMask := [0], AttentionMask := [1], Overflowing := [], Words := [0] }

/-- Claim C1 (code_bug evidence): `Pad` with direction `Left` breaks the
equal-length invariant.  Padding the empty (well-formed) Encoding to length
1 yields `Ids` of length 1 but `TypeIds` of length 2, because the source
(src/encoding.go:412) appends the already-padded `e.Ids` — instead of
`e.TypeIds` — after the `TypeIds` filler.  (For a non-empty input the same
branch even panics: the offsets filler loop at src/encoding.go:437 runs to
`len(newIds)` but writes into `newOffsets` of length `padLength`.) -/
theorem Pad_left_breaks_length_invariant :
    (zeroEncoding.Pad 1 0 0 "" PaddingDirection.Left).map
      (fun r => (r.Ids.length, r.TypeIds.length)) = some (1, 2) ∧ (1 : Nat) ≠ 2 :=
  ⟨rfl, by decide⟩

/-- Claim C2 (code_bug evidence): the no-op branch of `Pad` does not return
the receiver.  With `targetLength = 1 ≤ len(Ids) = 1` the source executes a
bare `return`; the named result `retVal` was never assigned, so the caller
receives the zero-valued Encoding, not `ex1`. -/
theorem Pad_noop_returns_zero_value :
    ex1.Pad 1 9 9 "p" PaddingDirection.Right = some zeroEncoding ∧
      zeroEncoding.Ids ≠ ex1.Ids :=
  ⟨rfl, by decide⟩

/-- Claim C4 (code_bug evidence): `Pad` leaves its overflow entries
unpadded.  `ex1o` carries one overflow entry of length 0; padding to
target length 2 pads the primary arrays to length 2 but the overflow entry
still has length 0 (the recursive `o.Pad(...)` results at
src/encoding.go:387-389 are discarded), where the claim requires it padded
to length 2. -/
theorem Pad_overflow_entries_unpadded :
    (ex1o.Pad 2 7 7 "p" PaddingDirection.Right).map
      (fun r => (r.Ids.length, r.Overflowing.map fun o => o.Ids.length)) =
      some (2, [0]) ∧ ([0] : List Nat) ≠ [2] :=
  ⟨rfl, by decide⟩

/-- Claim C8 (code_bug evidence): `Token2Chars` at `tokenIdx = len(Offsets)`
performs an out-of-range access (the guard at src/encoding.go:209 uses `>`
instead of `>=`), embedded as `none`, instead of signalling "not found";
an in-range index returns the offset with `true`, and an index strictly
beyond the length returns the zero offset with `false`. -/
theorem Token2Chars_len_index_crash :
    ex1.Token2Chars 1 = none ∧ ex1.Token2Chars 0 = some (⟨0, 1⟩, true) ∧
      ex1.Token2Chars 2 = some (⟨0, 0⟩, false) ∧ (1 : Int) = ex1.Offsets.length :=
  ⟨rfl, rfl, rfl, rfl⟩

/-- Claim C9 (code_bug evidence): after `TakeOverflowing`, the receiver's
`Overflowing` field still holds the original (non-empty) list.  The source
resets it on a value-receiver copy (src/encoding.go:154-158), so the
caller's Encoding keeps its overflow, contradicting the documented reset. -/
theorem TakeOverflowing_receiver_unchanged :
    ex1o.TakeOverflowing.1 = [zeroEncoding] ∧
      ex1o.TakeOverflowing.2.Overflowing ≠ [] :=
  ⟨rfl, by
    rw [show ex1o.TakeOverflowing.2.Overflowing = [zeroEncoding] from rfl]
    exact List.cons_ne_nil _ _⟩

/-- The running maximum computed by `MergeWith`'s loop, with an arbitrary
start value: it dominates the start value and every `End` of the list, and
it is the start value or one of the `End`s. -/
theorem foldlEnd_spec (l : List Offsets) : ∀ a : Nat,
    a ≤ l.foldl (fun acc o => if acc < o.End then o.End else acc) a ∧
    (∀ o ∈ l, o.End ≤ l.foldl (fun acc o => if acc < o.End then o.End else acc) a) ∧
    (l.foldl (fun acc o => if acc < o.End then o.End else acc) a = a ∨
      ∃ o ∈ l, l.foldl (fun acc o => if acc < o.End then o.End else acc) a = o.End) := by
  induction l with
  | nil => intro a; simp
  | cons x t ih =>
    intro a
    simp only [List.foldl_cons, List.mem_cons]
    obtain ⟨h1, h2, h3⟩ := ih (if a < x.End then x.End else a)
    refine ⟨le_trans (by split <;> omega) h1, ?_, ?_⟩
    · rintro o (rfl | ho)
      · exact le_trans (by split <;> omega) h1
      · exact h2 o ho
    · rcases h3 with h | ⟨o, ho, heq⟩
      · by_cases hx : a < x.End
        · exact Or.inr ⟨x, Or.inl rfl, by rw [h, if_pos hx]⟩
        · exact Or.inl (by rw [h, if_neg hx])
      · exact Or.inr ⟨o, Or.inr ho, heq⟩

/-- `maxEnd` dominates every `End` of the list. -/
theorem maxEnd_ge (l : List Offsets) : ∀ o ∈ l, o.End ≤ maxEnd l :=
  (foldlEnd_spec l 0).2.1

/-- On a non-empty list, `maxEnd` is attained by some element, hence it is
exactly the maximum `End`. -/
theorem maxEnd_mem (l : List Offsets) (h : l ≠ []) : ∃ o ∈ l, maxEnd l = o.End := by
  rcases (foldlEnd_spec l 0).2.2 with h0 | hmem
  · cases l with
    | nil => exact absurd rfl h
    | cons x t =>
      have hx := maxEnd_ge (x :: t) x (List.mem_cons_self x t)
      have h0' : maxEnd (x :: t) = 0 := h0
      exact ⟨x, List.mem_cons_self x t, by omega⟩
  · exact hmem

/-- Claim C5: in `current.MergeWith(other)`, with `E` the maximum `End`
over current's offsets (`maxEnd`, which is 0 when current has no offsets
and is attained by an offset otherwise), the offset at position
`len(current) + i` is other's offset at position `i` shifted by `E` in both
`Start` and `End`, and positions `[0, len(current))` carry current's own
offsets unchanged.  The hypothesis is the data-model invariant that
current's offsets are parallel to its ids. -/
theorem MergeWith_offset_rebasing (e pair : Encoding)
    (hlen : e.Offsets.length = e.Ids.length) :
    (∀ o ∈ e.Offsets, o.End ≤ maxEnd e.Offsets) ∧
    (e.Offsets = [] → maxEnd e.Offsets = 0) ∧
    (e.Offsets ≠ [] → ∃ o ∈ e.Offsets, maxEnd e.Offsets = o.End) ∧
    (∀ j, j < e.Ids.length → (e.MergeWith pair).Offsets[j]? = e.Offsets[j]?) ∧
    (∀ i, (e.MergeWith pair).Offsets[e.Ids.length + i]? =
      (pair.Offsets[i]?).map fun o =>
        ⟨o.Start + maxEnd e.Offsets, o.End + maxEnd e.Offsets⟩) := by
  refine ⟨maxEnd_ge e.Offsets, fun h => by rw [h]; rfl, maxEnd_mem e.Offsets, ?_, ?_⟩
  · intro j hj
    show (e.Offsets ++ pair.Offsets.map fun o =>
      ⟨o.Start + maxEnd e.Offsets, o.End + maxEnd e.Offsets⟩)[j]? = e.Offsets[j]?
    rw [List.getElem?_append_left (by omega)]
  · intro i
    show (e.Offsets ++ pair.Offsets.map fun o =>
      ⟨o.Start + maxEnd e.Offsets, o.End + maxEnd e.Offsets⟩)[e.Ids.length + i]? = _
    rw [List.getElem?_append_right (by omega),
      show e.Ids.length + i - e.Offsets.length = i by omega]
    exact List.getElem?_map _ _ _

/-- Witness for C5 at `exA` (offsets `[0,2)`, `[2,5)`, so `E = 5`) merged
with `exB` (offset `[0,3)`): position 2 holds `[5,8)` and position 0 still
holds `[0,2)`. -/
theorem MergeWith_offset_rebasing_witness :
    exA.Offsets.length = exA.Ids.length ∧
    (exA.MergeWith exB).Offsets[2]? = some ⟨5, 8⟩ ∧
    (exA.MergeWith exB).Offsets[0]? = some ⟨0, 2⟩ := by
  have h := MergeWith_offset_rebasing exA exB rfl
  exact ⟨rfl, h.2.2.2.2 0, h.2.2.2.1 0 (by decide)⟩

/-- Claim C6 is false as stated: `exA` has words `[0, 0]`, i.e. exactly one
distinct word index, and `exB` has word `[0]`, yet after
`exA.MergeWith(exB)` the word at position `len(exA) + 0 = 2` is
`0 + len(exA.Words) = 2`, not `0 + 1` as the distinct-count rebasing of the
claim demands: the source (src/encoding.go:375) rebases by `len(e.Words)`. -/
theorem MergeWith_words_distinct_count_counterexample :
    exA.Words.dedup.length = 1 ∧ exB.Words[0]? = some 0 ∧
    (exA.MergeWith exB).Words[exA.Ids.length + 0]? = some 2 ∧ (2 : Nat) ≠ 0 + 1 :=
  ⟨by decide, rfl, rfl, by decide⟩

/-- Claim C6 as amended: the word index at position `len(current) + i` of
`current.MergeWith(other)` is `other.Words[i]` plus the *number of word
entries* of current (`len(current.Words)`), reduced modulo `2 ^ 32` (the
values are Go `uint32`s, so the rebasing addition wraps), not the count of
distinct word indices.  The hypothesis is that current tracks words (its
word list is parallel to its ids). -/
theorem MergeWith_words_length_rebasing (e pair : Encoding)
    (h : e.Words.length = e.Ids.length) :
    ∀ i, (e.MergeWith pair).Words[e.Ids.length + i]? =
      (pair.Words[i]?).map fun w => (w + e.Words.length) % 2 ^ 32 := by
  intro i
  show (e.Words ++
    pair.Words.map fun w => (w + e.Words.length) % 2 ^ 32)[e.Ids.length + i]? = _
  rw [List.getElem?_append_right (by omega),
    show e.Ids.length + i - e.Words.length = i by omega]
  exact List.getElem?_map _ _ _

/-- Witness for the amended C6 at `exA` (two word entries) and `exB`:
position 2 of the merged words holds `0 + 2 = 2`. -/
theorem MergeWith_words_length_rebasing_witness :
    exA.Words.length = exA.Ids.length ∧
    (exA.MergeWith exB).Words[2]? = some 2 :=
  ⟨rfl, MergeWith_words_length_rebasing exA exB rfl 0⟩

/-- Length of a dropped slice of a list of known length. -/
theorem length_drop_of_length {α : Type} (l : List α) (n L : Nat) (h : l.length = L) :
    (l.drop n).length = L - n := by
  rw [List.length_drop, h]

/-- When neither slice panics (`stride` fits in `previous` and the window's
low bound fits in `current`), `getCurrentPart` returns the last `stride`
elements of `previous` followed by the next (up to) `size` elements of
`current` from offset `idx * size`. -/
theorem getCurrentPart_eq {α : Type} (previous current : List α) (size idx stride : Nat)
    (hp : stride ≤ previous.length) (hc : idx * size ≤ current.length) :
    getCurrentPart previous current size idx stride =
      some (lastN stride previous ++ (current.drop (idx * size)).take size) := by
  have hcurr : (if (idx + 1) * size > current.length then
      (if idx * size > current.length then (none : Option (List α))
       else some (current.drop (idx * size)))
      else some ((current.drop (idx * size)).take size)) =
      some ((current.drop (idx * size)).take size) := by
    by_cases hh : (idx + 1) * size > current.length
    · rw [if_pos hh, if_neg (by omega)]
      congr 1
      refine (List.take_of_length_le ?_).symm
      rw [List.length_drop]
      have : (idx + 1) * size = idx * size + size := by ring
      omega
    · rw [if_neg hh]
  have hprev : (if stride > previous.length then (none : Option (List α))
      else some (previous.drop (previous.length - stride))) =
      some (previous.drop (previous.length - stride)) := if_neg (by omega)
  simp only [getCurrentPart]
  rw [hcurr, hprev]
  rfl

set_option maxHeartbeats 2000000 in
/-- Behaviour of the window-construction loop of `Truncate`, by induction on
the fuel: when `partSize > 0`, the seven overflow sequences all have length
`lenO`, and the previous window's sequences share a common length exceeding
`stride`, the loop (entered at index `partId` with enough fuel) succeeds and
returns the list of windows such that (i) it is empty iff the loop guard
fails at entry, (ii) the final window index `partId + length` is the least
multiple-count with `ps * (partId + length) ≥ lenO` (so the guard fails
after exactly that many iterations), and (iii) the first window continues
the entry encoding and each later window continues its predecessor in the
sense of `winRel`. -/
theorem truncWindows_spec (oIds oTypeIds : List Nat) (oTokens : List String)
    (oOffsets : List Offsets) (oSTM oAM oWords : List Nat) (ps stride lenO : Nat)
    (hps : 0 < ps)
    (h1 : oIds.length = lenO) (h2 : oTypeIds.length = lenO) (h3 : oTokens.length = lenO)
    (h4 : oOffsets.length = lenO) (h5 : oSTM.length = lenO) (h6 : oAM.length = lenO)
    (h7 : oWords.length = lenO) :
    ∀ fuel partId prev, lenO - ps * partId < fuel →
      (∃ m, stride < m ∧ encLens prev m) →
      ∃ ws, truncWindows fuel prev oIds oTypeIds oTokens oOffsets oSTM oAM oWords
          ps stride partId = some ws ∧
        (lenO ≤ ps * partId → ws = []) ∧
        (ps * partId < lenO →
          lenO ≤ ps * (partId + ws.length) ∧ ps * (partId + ws.length) < lenO + ps) ∧
        (∀ w, ws[0]? = some w →
          winRel ps stride oIds oTypeIds oTokens oOffsets oSTM oAM oWords prev w partId) ∧
        (∀ j p w, ws[j]? = some p → ws[j + 1]? = some w →
          winRel ps stride oIds oTypeIds oTokens oOffsets oSTM oAM oWords p w (partId + j + 1)) := by
  intro fuel
  induction fuel with
  | zero => intro partId prev hf hprev; omega
  | succ n ih =>
    intro partId prev hf hprev
    obtain ⟨m, hsm, hm1, hm2, hm3, hm4, hm5, hm6, hm7⟩ := hprev
    have hcomm : ps * partId = partId * ps := Nat.mul_comm ps partId
    have hmulsucc : ps * (partId + 1) = ps * partId + ps := Nat.mul_succ ps partId
    by_cases hg : ps * partId < oIds.length
    · simp only [truncWindows, if_pos hg]
      rw [getCurrentPart_eq prev.Ids oIds ps partId stride (by omega) (by omega),
          getCurrentPart_eq prev.TypeIds oTypeIds ps partId stride (by omega) (by omega),
          getCurrentPart_eq prev.Tokens oTokens ps partId stride (by omega) (by omega),
          getCurrentPart_eq prev.Offsets oOffsets ps partId stride (by omega) (by omega),
          getCurrentPart_eq prev.SpecialTokenMask oSTM ps partId stride (by omega) (by omega),
          getCurrentPart_eq prev.AttentionMask oAM ps partId stride (by omega) (by omega),
          getCurrentPart_eq prev.Words oWords ps partId stride (by omega) (by omega)]
      simp only [Option.bind_eq_bind, Option.some_bind]
      obtain ⟨rest, hrest_eq, hrest_emp, hrest_cnt, hrest_head, hrest_chain⟩ :=
        ih (partId + 1)
          { Ids := lastN stride prev.Ids ++ (oIds.drop (partId * ps)).take ps,
            TypeIds := lastN stride prev.TypeIds ++ (oTypeIds.drop (partId * ps)).take ps,
            Tokens := lastN stride prev.Tokens ++ (oTokens.drop (partId * ps)).take ps,
            Offsets := lastN stride prev.Offsets ++ (oOffsets.drop (partId * ps)).take ps,
            SpecialTokenMask :=
              lastN stride prev.SpecialTokenMask ++ (oSTM.drop (partId * ps)).take ps,
            AttentionMask :=
              lastN stride prev.AttentionMask ++ (oAM.drop (partId * ps)).take ps,
            Overflowing := [],
            Words := lastN stride prev.Words ++ (oWords.drop (partId * ps)).take ps }
          (by omega)
          ⟨stride + min ps (lenO - partId * ps), by omega,
            by simp only [encLens, lastN, List.length_append, List.length_take,
                 List.length_drop]; omega⟩
      rw [hrest_eq]
      simp only [Option.some_bind, Option.pure_def]
      refine ⟨_, rfl, ?_, ?_, ?_, ?_⟩
      · intro hle; exact absurd hle (by omega)
      · intro _
        simp only [List.length_cons]
        by_cases hg2 : ps * (partId + 1) < lenO
        · obtain ⟨hb1, hb2⟩ := hrest_cnt hg2
          rw [show partId + (rest.length + 1) = partId + 1 + rest.length from by omega]
          exact ⟨hb1, hb2⟩
        · have hrest0 : rest = [] := hrest_emp (by omega)
          subst hrest0
          simp only [List.length_nil]
          rw [show partId + (0 + 1) = partId + 1 from by omega]
          omega
      · intro w hw
        rw [List.getElem?_cons_zero] at hw
        injection hw with hw'
        subst hw'
        exact ⟨rfl, rfl, rfl, rfl, rfl, rfl, rfl, rfl⟩
      · intro j p w hp hw
        cases j with
        | zero =>
          rw [List.getElem?_cons_zero] at hp
          injection hp with hp'
          subst hp'
          rw [List.getElem?_cons_succ] at hw
          have hrel := hrest_head w hw
          rw [show partId + 0 + 1 = partId + 1 from by omega]
          exact hrel
        | succ jj =>
          rw [List.getElem?_cons_succ] at hp hw
          have hrel := hrest_chain jj p w hp hw
          rw [show partId + (jj + 1) + 1 = partId + 1 + jj + 1 from by omega]
          exact hrel
    · simp only [truncWindows, if_neg hg]
      refine ⟨[], rfl, fun _ => rfl, ?_, ?_, ?_⟩
      · intro hlt; exact absurd hlt (by omega)
      · intro w hw; simp at hw
      · intro j p w hp hw; simp at hp

/-- Claim C7: for every Encoding, `Truncate` with `stride >= maxLen` or
`maxLen == 0` returns the `InvalidArgument` error (and, the receiver being
a value receiver, the caller's Encoding is untouched — the error
constructor carries no encoding), while with `0 < maxLen` and
`stride < maxLen` the returned error is nil: the result is never
`invalidArg` (the only error value the source ever returns is the one from
the argument check; a runtime panic is modeled separately as `crash` and is
not a returned error). -/
theorem Truncate_arg_validation (e : Encoding) (maxLen stride : Nat) :
    (stride ≥ maxLen ∨ maxLen = 0 → e.Truncate maxLen stride = .invalidArg) ∧
    (0 < maxLen → stride < maxLen → e.Truncate maxLen stride ≠ .invalidArg) := by
  constructor
  · intro h
    unfold Encoding.Truncate
    rw [if_pos h]
  · intro h0 hs
    simp only [Encoding.Truncate]
    rw [if_neg (by omega)]
    split
    · exact fun hc => nomatch hc
    · split
      · exact fun hc => nomatch hc
      · split
        · exact fun hc => nomatch hc
        · exact fun hc => nomatch hc

/-- Witness for C7: `Truncate(1, 1)` on `ex1` is `invalidArg`;
`Truncate(2, 1)` is not. -/
theorem Truncate_arg_validation_witness :
    ex1.Truncate 1 1 = .invalidArg ∧ ex1.Truncate 2 1 ≠ .invalidArg :=
  ⟨(Truncate_arg_validation ex1 1 1).1 (Or.inl (by decide)),
   (Truncate_arg_validation ex1 2 1).2 (by decide) (by decide)⟩

set_option maxHeartbeats 1000000 in
/-- Claim C3: on a well-formed Encoding of length `L > maxLen` with valid
arguments (`0 < maxLen`, `stride < maxLen`), `Truncate` succeeds with a
primary Encoding whose every parallel sequence is the prefix `[0, maxLen)`,
and whose overflow window `k` consists of the last `stride` elements of
window `k-1` (of the primary prefix for `k = 0`) followed by up to
`partSize = maxLen - stride` fresh elements of the suffix `[maxLen, L)`
starting at offset `k * partSize` (`winRel`); the concrete `ids = [0..9]`,
`maxLen = 4`, `stride = 2` instance is checked in the witness. -/
theorem Truncate_windowing (e : Encoding) (L maxLen stride : Nat)
    (hwf : encLens e L) (hmax : maxLen < L) (hpos : 0 < maxLen) (hstr : stride < maxLen) :
    ∃ r, e.Truncate maxLen stride = .ok r ∧
      r.Ids = e.Ids.take maxLen ∧ r.TypeIds = e.TypeIds.take maxLen ∧
      r.Tokens = e.Tokens.take maxLen ∧ r.Offsets = e.Offsets.take maxLen ∧
      r.SpecialTokenMask = e.SpecialTokenMask.take maxLen ∧
      r.AttentionMask = e.AttentionMask.take maxLen ∧
      r.Words = e.Words.take maxLen ∧
      (∀ w, r.Overflowing[0]? = some w →
        winRel (maxLen - stride) stride (e.Ids.drop maxLen) (e.TypeIds.drop maxLen)
          (e.Tokens.drop maxLen) (e.Offsets.drop maxLen) (e.SpecialTokenMask.drop maxLen)
          (e.AttentionMask.drop maxLen) (e.Words.drop maxLen) r w 0) ∧
      (∀ k p w, r.Overflowing[k]? = some p → r.Overflowing[k + 1]? = some w →
        winRel (maxLen - stride) stride (e.Ids.drop maxLen) (e.TypeIds.drop maxLen)
          (e.Tokens.drop maxLen) (e.Offsets.drop maxLen) (e.SpecialTokenMask.drop maxLen)
          (e.AttentionMask.drop maxLen) (e.Words.drop maxLen) p w (k + 1)) := by
  obtain ⟨he1, he2, he3, he4, he5, he6, he7⟩ := hwf
  obtain ⟨ws, hws_eq, _hws_emp, _hws_cnt, hws_head, hws_chain⟩ :=
    truncWindows_spec (e.Ids.drop maxLen) (e.TypeIds.drop maxLen) (e.Tokens.drop maxLen)
      (e.Offsets.drop maxLen) (e.SpecialTokenMask.drop maxLen)
      (e.AttentionMask.drop maxLen) (e.Words.drop maxLen) (maxLen - stride) stride
      (L - maxLen) (by omega)
      (length_drop_of_length e.Ids maxLen L he1)
      (length_drop_of_length e.TypeIds maxLen L he2)
      (length_drop_of_length e.Tokens maxLen L he3)
      (length_drop_of_length e.Offsets maxLen L he4)
      (length_drop_of_length e.SpecialTokenMask maxLen L he5)
      (length_drop_of_length e.AttentionMask maxLen L he6)
      (length_drop_of_length e.Words maxLen L he7)
      ((e.Ids.drop maxLen).length + 1) 0
      { Ids := e.Ids.take maxLen, TypeIds := e.TypeIds.take maxLen,
        Tokens := e.Tokens.take maxLen, Offsets := e.Offsets.take maxLen,
        SpecialTokenMask := e.SpecialTokenMask.take maxLen,
        AttentionMask := e.AttentionMask.take maxLen,
        Overflowing := e.Overflowing, Words := e.Words.take maxLen }
      (by rw [List.length_drop]; omega)
      ⟨maxLen, hstr, by simp only [encLens, List.length_take]; omega⟩
  refine
    ⟨({ Ids := e.Ids.take maxLen, TypeIds := e.TypeIds.take maxLen,
        Tokens := e.Tokens.take maxLen, Offsets := e.Offsets.take maxLen,
        SpecialTokenMask := e.SpecialTokenMask.take maxLen,
        AttentionMask := e.AttentionMask.take maxLen,
        Overflowing := ws, Words := e.Words.take maxLen } : Encoding),
      ?_, rfl, rfl, rfl, rfl, rfl, rfl, rfl, ?_, ?_⟩
  · simp only [Encoding.Truncate]
    rw [if_neg (by omega), if_neg (by omega), if_neg (by omega)]
    rw [hws_eq]
  · intro w hw
    exact hws_head w hw
  · intro k p w hp hw
    have hrel := hws_chain k p w hp hw
    rw [show (0 : Nat) + k + 1 = k + 1 from by omega] at hrel
    exact hrel

set_option maxHeartbeats 1000000 in
/-- Claim C10: with valid arguments (`partSize = maxLen - stride ≥ 1`) on a
well-formed Encoding longer than `maxLen`, the window loop of `Truncate`
terminates: it returns successfully, and the number of produced windows `N`
satisfies `lenO ≤ partSize * N` with `partSize * (N - 1) < lenO` for
`lenO = L - maxLen`, i.e. `N = ceil(lenO / partSize)` — the guard
`partSize * partId < lenO` fails after at most `ceil(lenO / partSize)`
iterations, which is also why the fuel `lenO + 1` given by the embedding
never runs out.  (In the Lean embedding the loop is a total function by
construction; this theorem carries the claim's iteration bound.) -/
theorem Truncate_window_count (e : Encoding) (L maxLen stride : Nat)
    (hwf : encLens e L) (hmax : maxLen < L) (hpos : 0 < maxLen) (hstr : stride < maxLen) :
    ∃ r, e.Truncate maxLen stride = .ok r ∧
      L - maxLen ≤ (maxLen - stride) * r.Overflowing.length ∧
      (maxLen - stride) * (r.Overflowing.length - 1) < L - maxLen := by
  obtain ⟨he1, he2, he3, he4, he5, he6, he7⟩ := hwf
  obtain ⟨ws, hws_eq, _hws_emp, hws_cnt, _hws_head, _hws_chain⟩ :=
    truncWindows_spec (e.Ids.drop maxLen) (e.TypeIds.drop maxLen) (e.Tokens.drop maxLen)
      (e.Offsets.drop maxLen) (e.SpecialTokenMask.drop maxLen)
      (e.AttentionMask.drop maxLen) (e.Words.drop maxLen) (maxLen - stride) stride
      (L - maxLen) (by omega)
      (length_drop_of_length e.Ids maxLen L he1)
      (length_drop_of_length e.TypeIds maxLen L he2)
      (length_drop_of_length e.Tokens maxLen L he3)
      (length_drop_of_length e.Offsets maxLen L he4)
      (length_drop_of_length e.SpecialTokenMask maxLen L he5)
      (length_drop_of_length e.AttentionMask maxLen L he6)
      (length_drop_of_length e.Words maxLen L he7)
      ((e.Ids.drop maxLen).length + 1) 0
      { Ids := e.Ids.take maxLen, TypeIds := e.TypeIds.take maxLen,
        Tokens := e.Tokens.take maxLen, Offsets := e.Offsets.take maxLen,
        SpecialTokenMask := e.SpecialTokenMask.take maxLen,
        AttentionMask := e.AttentionMask.take maxLen,
        Overflowing := e.Overflowing, Words := e.Words.take maxLen }
      (by rw [List.length_drop]; omega)
      ⟨maxLen, hstr, by simp only [encLens, List.length_take]; omega⟩
  obtain ⟨hc1, hc2⟩ := hws_cnt (by
    have := Nat.mul_zero (maxLen - stride)
    omega)
  refine
    ⟨({ Ids := e.Ids.take maxLen, TypeIds := e.TypeIds.take maxLen,
        Tokens := e.Tokens.take maxLen, Offsets := e.Offsets.take maxLen,
        SpecialTokenMask := e.SpecialTokenMask.take maxLen,
        AttentionMask := e.AttentionMask.take maxLen,
        Overflowing := ws, Words := e.Words.take maxLen } : Encoding),
      ?_, ?_, ?_⟩
  · simp only [Encoding.Truncate]
    rw [if_neg (by omega), if_neg (by omega), if_neg (by omega)]
    rw [hws_eq]
  · show L - maxLen ≤ (maxLen - stride) * ws.length
    rw [show (0 : Nat) + ws.length = ws.length from by omega] at hc1
    exact hc1
  · show (maxLen - stride) * (ws.length - 1) < L - maxLen
    rw [show (0 : Nat) + ws.length = ws.length from by omega] at hc2
    have hN : ws.length ≠ 0 := by
      intro h0
      rw [h0, Nat.mul_zero] at hc1
      omega
    have hmul : (maxLen - stride) * (ws.length - 1) + (maxLen - stride) =
        (maxLen - stride) * ws.length := by
      have hone : ws.length - 1 + 1 = ws.length := by omega
      calc (maxLen - stride) * (ws.length - 1) + (maxLen - stride)
          = (maxLen - stride) * (ws.length - 1 + 1) := (Nat.mul_succ _ _).symm
        _ = (maxLen - stride) * ws.length := by rw [hone]
    omega

/-- Witness for C3 at the spec's example: `ids = [0..9]`, `maxLen = 4`,
`stride = 2` gives primary ids `[0,1,2,3]` and windows `[2,3,4,5]`,
`[4,5,6,7]`, `[6,7,8,9]`. -/
theorem Truncate_windowing_witness :
    encLens ex10 10 ∧ 4 < 10 ∧ 0 < 4 ∧ 2 < 4 ∧
    (∃ r, ex10.Truncate 4 2 = .ok r ∧
      r.Ids = ex10.Ids.take 4 ∧ r.TypeIds = ex10.TypeIds.take 4 ∧
      r.Tokens = ex10.Tokens.take 4 ∧ r.Offsets = ex10.Offsets.take 4 ∧
      r.SpecialTokenMask = ex10.SpecialTokenMask.take 4 ∧
      r.AttentionMask = ex10.AttentionMask.take 4 ∧
      r.Words = ex10.Words.take 4 ∧
      (∀ w, r.Overflowing[0]? = some w →
        winRel 2 2 (ex10.Ids.drop 4) (ex10.TypeIds.drop 4) (ex10.Tokens.drop 4)
          (ex10.Offsets.drop 4) (ex10.SpecialTokenMask.drop 4) (ex10.AttentionMask.drop 4)
          (ex10.Words.drop 4) r w 0) ∧
      (∀ k p w, r.Overflowing[k]? = some p → r.Overflowing[k + 1]? = some w →
        winRel 2 2 (ex10.Ids.drop 4) (ex10.TypeIds.drop 4) (ex10.Tokens.drop 4)
          (ex10.Offsets.drop 4) (ex10.SpecialTokenMask.drop 4) (ex10.AttentionMask.drop 4)
          (ex10.Words.drop 4) p w (k + 1))) ∧
    (ex10.Truncate 4 2).primaryIds = [0, 1, 2, 3] ∧
    (ex10.Truncate 4 2).overflowIds = [[2, 3, 4, 5], [4, 5, 6, 7], [6, 7, 8, 9]] :=
  ⟨⟨rfl, rfl, rfl, rfl, rfl, rfl, rfl⟩, by decide, by decide, by decide,
    Truncate_windowing ex10 10 4 2 ⟨rfl, rfl, rfl, rfl, rfl, rfl, rfl⟩ (by decide)
      (by decide) (by decide),
    by rfl, by rfl⟩

/-- Witness for C10 at the same example: `6 ≤ 2 * 3` and `2 * 2 < 6` for
the three produced windows. -/
theorem Truncate_window_count_witness :
    encLens ex10 10 ∧ 4 < 10 ∧ 0 < 4 ∧ 2 < 4 ∧
    (∃ r, ex10.Truncate 4 2 = .ok r ∧ 10 - 4 ≤ (4 - 2) * r.Overflowing.length ∧
      (4 - 2) * (r.Overflowing.length - 1) < 10 - 4) :=
  ⟨⟨rfl, rfl, rfl, rfl, rfl, rfl, rfl⟩, by decide, by decide, by decide,
    Truncate_window_count ex10 10 4 2 ⟨rfl, rfl, rfl, rfl, rfl, rfl, rfl⟩ (by decide)
      (by decide) (by decide)⟩
